import Mathlib

/-!
Shallow embedding of `pint/registry.py`: the composed `Quantity` / `Unit` /
`GenericUnitRegistry` facet stacks, `UnitRegistry.__init__`, the deferred
construction handle `LazyRegistry`, and the forwarding proxy
`ApplicationRegistry`.

Modelling conventions:
* Python values manipulated by this slice are embedded as the inductive `Val`;
  keyword-argument dictionaries as association lists (`Dict`).
* Stateful objects become explicit state types (`LazyState`, `RegObj`) with
  operations returning the updated state; observable side effects (registry
  construction, the type-identity swap, the debug log in
  `ApplicationRegistry.set`) are recorded in an explicit `Effect` trace.
* Attribute reads and writes on the handles are modelled at the level of the
  `__getattr__` / `__setattr__` hooks defined by the source classes, which is
  the code the claims cite.
* Registry behaviour that the spec declares out of scope (unit parsing on
  subscript/call, membership, iteration, `pint.util.pi_theorem`) is embedded
  as free functions: they return injectively encoded formal applications of
  their inputs, so no two distinct behaviours are conflated.
-/

namespace Pint

/-- Embedded universe of the Python values this slice stores and passes
around: strings, booleans, `None`, type objects (such as the `float` default
for `non_int_type`), and pairs/tuples used for encodings. -/
inductive Val where
  | str (s : String)
  | bool (b : Bool)
  | pynone
  | typeV (name : String)
  | pair (a b : Val)
deriving DecidableEq

/-- A Python keyword-argument dictionary, embedded as an association list
(Python dicts have unique keys; operations below implement dict semantics on
that representation). -/
abbrev Dict := List (String × Val)

/-- `d[key]` lookup returning `none` when absent. -/
def dictGet (d : Dict) (key : String) : Option Val :=
  (d.find? (fun p => p.1 = key)).map (·.2)

/-- `d[key] = v`: replace the binding for `key` if present, append otherwise. -/
def dictSet : Dict → String → Val → Dict
  | [], key, v => [(key, v)]
  | (k0, v0) :: rest, key, v =>
    if k0 = key then (key, v) :: rest else (k0, v0) :: dictSet rest key v

/-- Injective encoding of a value list as a single `Val`. -/
def encodeList : List Val → Val
  | [] => .pynone
  | v :: vs => .pair v (encodeList vs)

/-- Injective encoding of a dictionary as a single `Val`. -/
def encodeDict : Dict → Val
  | [] => .pynone
  | (k, v) :: rest => .pair (.pair (.str k) v) (encodeDict rest)

/-- The configuration a `UnitRegistry` is constructed with.  The fields are
exactly the keyword arguments `UnitRegistry.__init__` (lines 148-180) passes
on to `super().__init__`; the registry storing this configuration is modelled
from the spec (section 4.2: the registry owns its active configuration,
including the redefinition policy), since the plain-facet base class is not
under `src/`.  `extraAttrs` models the instance dictionary receiving later
attribute writes, and `afterInitDone` records whether `_after_init` ran. -/
structure UnitRegistry where
  filename : Val
  force_ndarray : Val
  force_ndarray_like : Val
  default_as_delta : Val
  autoconvert_offset_to_baseunit : Val
  on_redefinition : Val
  system : Val
  auto_reduce_dimensions : Val
  autoconvert_to_preferred : Val
  preprocessors : Val
  fmt_locale : Val
  non_int_type : Val
  case_sensitive : Val
  cache_folder : Val
  extraAttrs : Dict := []
  afterInitDone : Bool := false
deriving DecidableEq

/-- The parameter names of `UnitRegistry.__init__`, in positional order
(source lines 148-163). -/
def paramNames : List String :=
  ["filename", "force_ndarray", "force_ndarray_like", "default_as_delta",
   "autoconvert_offset_to_baseunit", "on_redefinition", "system",
   "auto_reduce_dimensions", "autoconvert_to_preferred", "preprocessors",
   "fmt_locale", "non_int_type", "case_sensitive", "cache_folder"]

/-- The default values of `UnitRegistry.__init__`'s parameters, as written in
the signature (note: the signature default for `on_redefinition` is `"warn"`
and for `default_as_delta` is `True`). -/
def paramDefault : String → Val
  | "filename" => .str ""
  | "force_ndarray" => .bool false
  | "force_ndarray_like" => .bool false
  | "default_as_delta" => .bool true
  | "autoconvert_offset_to_baseunit" => .bool false
  | "on_redefinition" => .str "warn"
  | "system" => .pynone
  | "auto_reduce_dimensions" => .bool false
  | "autoconvert_to_preferred" => .bool false
  | "preprocessors" => .pynone
  | "fmt_locale" => .pynone
  | "non_int_type" => .typeV "float"
  | "case_sensitive" => .bool true
  | "cache_folder" => .pynone
  | _ => .pynone

/-- Python call binding for parameter `i` named `name`: a positional argument
wins, then a keyword argument, then the signature default. -/
def boundParam (args : List Val) (kwargs : Dict) (i : Nat) (name : String) : Val :=
  match args.get? i with
  | some v => v
  | none => (dictGet kwargs name).getD (paramDefault name)

/-- Python call binding succeeds for `UnitRegistry.__init__` when there are at
most 14 positional arguments, every keyword is a parameter name, and no
parameter receives both a positional and a keyword value (otherwise the call
raises `TypeError`). -/
def initOk (args : List Val) (kwargs : Dict) : Bool :=
  decide (args.length ≤ 14)
    && kwargs.all (fun p => paramNames.contains p.1)
    && (List.range args.length).all
        (fun i => (dictGet kwargs (paramNames.getD i "")).isNone)

/-- The configuration `UnitRegistry.__init__` stores when called with `args`
and `kwargs`: each parameter bound positionally, by keyword, or to its
signature default, then handed to `super().__init__` (lines 165-180). -/
def builtRegistry (args : List Val) (kwargs : Dict) : UnitRegistry :=
  { filename := boundParam args kwargs 0 "filename"
    force_ndarray := boundParam args kwargs 1 "force_ndarray"
    force_ndarray_like := boundParam args kwargs 2 "force_ndarray_like"
    default_as_delta := boundParam args kwargs 3 "default_as_delta"
    autoconvert_offset_to_baseunit :=
      boundParam args kwargs 4 "autoconvert_offset_to_baseunit"
    on_redefinition := boundParam args kwargs 5 "on_redefinition"
    system := boundParam args kwargs 6 "system"
    auto_reduce_dimensions := boundParam args kwargs 7 "auto_reduce_dimensions"
    autoconvert_to_preferred := boundParam args kwargs 8 "autoconvert_to_preferred"
    preprocessors := boundParam args kwargs 9 "preprocessors"
    fmt_locale := boundParam args kwargs 10 "fmt_locale"
    non_int_type := boundParam args kwargs 11 "non_int_type"
    case_sensitive := boundParam args kwargs 12 "case_sensitive"
    cache_folder := boundParam args kwargs 13 "cache_folder"
    extraAttrs := []
    afterInitDone := false }

/-- `UnitRegistry(*args, **kwargs)`: binds the arguments of
`UnitRegistry.__init__` (lines 148-164) and stores the resulting
configuration.  `none` is the `TypeError` raised on a binding failure. -/
def unitRegistryInit (args : List Val) (kwargs : Dict) : Option UnitRegistry :=
  if initOk args kwargs then some (builtRegistry args kwargs) else none

/-- `self._after_init()` (called by `LazyRegistry.__init`, line 226).  Its
body lives in the plain facet, not under `src/`; modelled from the spec as the
post-construction step, recorded by a flag and leaving the stored
configuration untouched. -/
def UnitRegistry._after_init (r : UnitRegistry) : UnitRegistry :=
  { r with afterInitDone := true }

/-- The definitional part of a registry's configuration: every constructor
parameter except the redefinition-conflict policy.  Per the spec (sections 1
and 4.2) the policy only governs how a conflicting redefinition is handled
during setup; the loaded definitions and parsing behaviour derive from the
remaining configuration. -/
def defConfig (r : UnitRegistry) : Val :=
  .pair r.filename (.pair r.force_ndarray (.pair r.force_ndarray_like
    (.pair r.default_as_delta (.pair r.autoconvert_offset_to_baseunit
      (.pair r.system (.pair r.auto_reduce_dimensions
        (.pair r.autoconvert_to_preferred (.pair r.preprocessors
          (.pair r.fmt_locale (.pair r.non_int_type
            (.pair r.case_sensitive r.cache_folder)))))))))))

/-- Injective encoding of a full registry state as a `Val`. -/
def encodeReg (r : UnitRegistry) : Val :=
  .pair (defConfig r)
    (.pair r.on_redefinition (.pair (.bool r.afterInitDone) (encodeDict r.extraAttrs)))

/-- Attribute read on a materialized registry.  `_on_redefinition` is the
stored policy (spec section 4.2: the registry owns the redefinition policy;
its storage class is not under `src/`); attributes written later are found in
the instance dictionary; any other attribute is modelled freely as a formal
application (the registry's full attribute surface is out of the specified
scope). -/
def regGetattr (r : UnitRegistry) (item : String) : Val :=
  match dictGet r.extraAttrs item with
  | some v => v
  | none =>
    if item = "_on_redefinition" then r.on_redefinition
    else .pair (.str "attr") (.pair (encodeReg r) (.str item))

/-- Attribute write on a materialized registry: updates the stored policy for
`_on_redefinition`, the instance dictionary otherwise. -/
def regSetattr (r : UnitRegistry) (key : String) (v : Val) : UnitRegistry :=
  if key = "_on_redefinition" then { r with on_redefinition := v }
  else { r with extraAttrs := dictSet r.extraAttrs key v }

/-- Modelled from the spec: subscript on a registry parses a unit expression,
behaviour out of the specified scope; embedded as a free function of the
registry state and the key. -/
def regGetitem (r : UnitRegistry) (item : Val) : Val :=
  .pair (.str "getitem") (.pair (encodeReg r) item)

/-- Modelled from the spec: calling a registry constructs a quantity,
behaviour out of the specified scope; embedded as a free function of the
registry state and the arguments. -/
def regCall (r : UnitRegistry) (args : List Val) : Val :=
  .pair (.str "call") (.pair (encodeReg r) (encodeList args))

/-- Modelled from the spec: membership test on a registry, behaviour out of
the specified scope; embedded as a free function. -/
def regContains (r : UnitRegistry) (item : Val) : Val :=
  .pair (.str "contains") (.pair (encodeReg r) item)

/-- Modelled from the spec: iteration over a registry, behaviour out of the
specified scope; embedded as a free function. -/
def regIter (r : UnitRegistry) : Val :=
  .pair (.str "iter") (encodeReg r)

/-- Modelled from the spec: `pint.util.pi_theorem` (imported at line 37, not
under `src/`: the dimensional-analysis algorithm is declared out of scope).
Per the spec it builds dimensionless groups from the quantities mapping and
the unit definitions the registry loaded, which are determined by the
registry's definitional configuration — not by the redefinition-conflict
policy, which only governs conflict handling during setup.  Embedded as a
free function of exactly those inputs. -/
def Util.pi_theorem (quantities : Val) (registry : UnitRegistry) : Val :=
  .pair (.str "pi_theorem") (.pair quantities (defConfig registry))

/-- `UnitRegistry.pi_theorem` (lines 182-196): returns
`pi_theorem(quantities, self)`. -/
def UnitRegistry.pi_theorem (self : UnitRegistry) (quantities : Val) : Val :=
  Util.pi_theorem quantities self

/-- Observable side effects of the handle operations: completed registry
construction, a direct (non-forwarded) attribute store such as the
type-identity swap, and the debug log emitted by `ApplicationRegistry.set`. -/
inductive Effect where
  | constructRegistry
  | directStore (key : String) (v : Val)
  | logSwap
deriving DecidableEq

/-- The lifecycle state of a `LazyRegistry` object: `pending` holds the
recorded construction arguments; `materialized` is the state after the
in-place retyping to `UnitRegistry` and successful initialization; `broken`
is the state left behind when the class swap happened but
`UnitRegistry.__init__` raised (the object is then an uninitialized
`UnitRegistry`). -/
inductive LazyState where
  | pending (args : List Val) (kwargs : Dict)
  | materialized (reg : UnitRegistry)
  | broken
deriving DecidableEq

/-- `LazyRegistry.__init__` (lines 218-219): stores
`(args or (), kwargs or {})` in the instance dictionary under `"params"` —
a direct `__dict__` store, deliberately bypassing the class's `__setattr__`.
Python `or` yields the right operand when the left is `None` or empty, so a
missing tuple or dictionary becomes the empty one. -/
def LazyRegistry.init (args : Option (List Val)) (kwargs : Option Dict) :
    LazyState × List Effect :=
  let a := args.getD []
  let k := kwargs.getD []
  (.pending a k, [.directStore "params" (.pair (encodeList a) (encodeDict k))])

/-- `LazyRegistry.__init` (lines 221-226): forces
`kwargs["on_redefinition"] = "raise"`, swaps `self.__class__` to
`UnitRegistry` (a direct store, via the `__setattr__` special case), runs
`UnitRegistry.__init__(*args, **kwargs)`, then `self._after_init()`.  A
binding failure in `__init__` raises after the class swap, leaving the object
broken with no completed construction. -/
def lazyMaterialize (args : List Val) (kwargs : Dict) :
    Option UnitRegistry × List Effect :=
  match unitRegistryInit args (dictSet kwargs "on_redefinition" (.str "raise")) with
  | some r =>
    (some r._after_init,
     [.directStore "__class__" (.typeV "UnitRegistry"), .constructRegistry])
  | none => (none, [.directStore "__class__" (.typeV "UnitRegistry")])

/-- `LazyRegistry.__getattr__` (lines 228-232): `_on_redefinition` answers
`"raise"` without materializing; any other attribute read materializes and
re-dispatches the read to the now-real registry. -/
def lazyGetattr (st : LazyState) (item : String) :
    Option Val × LazyState × List Effect :=
  match st with
  | .pending a k =>
    if item = "_on_redefinition" then (some (.str "raise"), st, [])
    else
      match lazyMaterialize a k with
      | (some r, effs) => (some (regGetattr r item), .materialized r, effs)
      | (none, effs) => (none, .broken, effs)
  | .materialized r => (some (regGetattr r item), st, [])
  | .broken => (none, st, [])

/-- `LazyRegistry.__setattr__` (lines 234-239): a `__class__` write is stored
directly through `super().__setattr__` (the re-entrancy guard for the swap
performed inside `__init`; recorded here as a direct-store effect); any other
write materializes and re-dispatches the write to the registry. -/
def lazySetattr (st : LazyState) (key : String) (v : Val) :
    LazyState × List Effect :=
  match st with
  | .pending a k =>
    if key = "__class__" then (st, [.directStore key v])
    else
      match lazyMaterialize a k with
      | (some r, effs) => (.materialized (regSetattr r key v), effs)
      | (none, effs) => (.broken, effs)
  | .materialized r => (.materialized (regSetattr r key v), [])
  | .broken => (.broken, [])

/-- `LazyRegistry.__getitem__` (lines 241-243): materializes and re-dispatches
the subscript. -/
def lazyGetitem (st : LazyState) (item : Val) :
    Option Val × LazyState × List Effect :=
  match st with
  | .pending a k =>
    match lazyMaterialize a k with
    | (some r, effs) => (some (regGetitem r item), .materialized r, effs)
    | (none, effs) => (none, .broken, effs)
  | .materialized r => (some (regGetitem r item), st, [])
  | .broken => (none, st, [])

/-- `LazyRegistry.__call__` (lines 245-247): materializes and re-dispatches
the call. -/
def lazyCall (st : LazyState) (args : List Val) :
    Option Val × LazyState × List Effect :=
  match st with
  | .pending a k =>
    match lazyMaterialize a k with
    | (some r, effs) => (some (regCall r args), .materialized r, effs)
    | (none, effs) => (none, .broken, effs)
  | .materialized r => (some (regCall r args), st, [])
  | .broken => (none, st, [])

/-- Membership test reaching a `LazyRegistry` target (through
`ApplicationRegistry.__contains__`, line 303, which reads the target's
`__contains__` attribute): the attribute read materializes a pending handle
via `__getattr__`, then the registry's own membership test runs. -/
def lazyContains (st : LazyState) (item : Val) :
    Option Val × LazyState × List Effect :=
  match st with
  | .pending a k =>
    match lazyMaterialize a k with
    | (some r, effs) => (some (regContains r item), .materialized r, effs)
    | (none, effs) => (none, .broken, effs)
  | .materialized r => (some (regContains r item), st, [])
  | .broken => (none, st, [])

/-- Iteration over a `LazyRegistry` target (through
`ApplicationRegistry.__iter__`, line 306): `LazyRegistry` defines no
`__iter__`, so iteration falls back to the `__getitem__` sequence protocol,
whose first access materializes a pending handle; modelled at that effective
level. -/
def lazyIter (st : LazyState) : Option Val × LazyState × List Effect :=
  match st with
  | .pending a k =>
    match lazyMaterialize a k with
    | (some r, effs) => (some (regIter r), .materialized r, effs)
    | (none, effs) => (none, .broken, effs)
  | .materialized r => (some (regIter r), st, [])
  | .broken => (none, st, [])

/-- `h.pi_theorem(quantities)` on a `LazyRegistry` handle: the attribute read
`"pi_theorem"` goes through `__getattr__` (lines 228-232), materializing a
pending handle and re-dispatching to the bound method
`UnitRegistry.pi_theorem` (lines 182-196), which is then called. -/
def lazyPiTheorem (st : LazyState) (quantities : Val) :
    Option (Val × LazyState) :=
  match st with
  | .pending a k =>
    match lazyMaterialize a k with
    | (some r, _) => some (r.pi_theorem quantities, .materialized r)
    | (none, _) => none
  | .materialized r => some (r.pi_theorem quantities, st)
  | .broken => none

/-- The four touch operations a `LazyRegistry` defines trigger hooks for:
attribute read, attribute write, subscript access, call (lines 228-247). -/
inductive Touch where
  | getattrT (item : String)
  | setattrT (key : String) (v : Val)
  | getitemT (item : Val)
  | callT (args : List Val)
deriving DecidableEq

/-- The touch paths the source special-cases away from the materialization
trigger: reading `_on_redefinition` (line 229) and writing `__class__`
(line 235). -/
def exemptTouch : Touch → Bool
  | .getattrT item => item == "_on_redefinition"
  | .setattrT key _ => key == "__class__"
  | _ => false

/-- Apply one touch operation to a `LazyRegistry` state, returning the
operation's value (none for a write or an error), the new state, and the
effect trace. -/
def applyTouch (st : LazyState) : Touch → Option Val × LazyState × List Effect
  | .getattrT item => lazyGetattr st item
  | .setattrT key v =>
    let o := lazySetattr st key v
    (none, o.1, o.2)
  | .getitemT item => lazyGetitem st item
  | .callT args => lazyCall st args

/-- The same touch performed directly on a materialized registry: the state
it leaves the registry in. -/
def regApplyTouch (r : UnitRegistry) : Touch → UnitRegistry
  | .setattrT key v => regSetattr r key v
  | _ => r

/-- The same touch performed directly on a materialized registry: the value
it returns. -/
def regTouchValue (r : UnitRegistry) : Touch → Option Val
  | .getattrT item => some (regGetattr r item)
  | .setattrT _ _ => none
  | .getitemT item => some (regGetitem r item)
  | .callT args => some (regCall r args)

/-- Whether a lazy handle is still in the pending (untriggered) state. -/
def isPendingState : LazyState → Bool
  | .pending _ _ => true
  | _ => false

/-- Whether a lazy handle has been materialized into a registry. -/
def isMaterializedState : LazyState → Bool
  | .materialized _ => true
  | _ => false

/-- The seven capability facets composed by this module. -/
inductive Facet where
  | system
  | context
  | dask
  | numpy
  | measurement
  | nonmultiplicative
  | plain
deriving DecidableEq, Fintype

/-- The facet order of the bases of `class Quantity` (lines 44-53):
`SystemQuantity, ContextQuantity, DaskQuantity, NumpyQuantity,
MeasurementQuantity, NonMultiplicativeQuantity, PlainQuantity`. -/
def quantityFacetBases : List Facet :=
  [.system, .context, .dask, .numpy, .measurement, .nonmultiplicative, .plain]

/-- The facet order of the bases of `class Unit` (lines 75-84):
`SystemUnit, ContextUnit, DaskUnit, NumpyUnit, MeasurementUnit,
NonMultiplicativeUnit, PlainUnit`. -/
def unitFacetBases : List Facet :=
  [.system, .context, .dask, .numpy, .measurement, .nonmultiplicative, .plain]

/-- The facet order of the bases of `class GenericUnitRegistry`
(lines 87-96): `GenericSystemRegistry, GenericContextRegistry,
GenericDaskRegistry, GenericNumpyRegistry, GenericMeasurementRegistry,
GenericNonMultiplicativeRegistry, GenericPlainRegistry`. -/
def registryFacetBases : List Facet :=
  [.system, .context, .dask, .numpy, .measurement, .nonmultiplicative, .plain]

/-- The fixed precedence order the spec names, most-specific first. -/
def facetPrecedence : List Facet :=
  [.system, .context, .dask, .numpy, .measurement, .nonmultiplicative, .plain]

/-- Method resolution over a facet base list: the earliest listed facet that
defines the operation provides the behaviour (Python's linearization keeps
the direct bases in declaration order, so among sibling facet contributions
the first definer wins). -/
def resolveOp (bases : List Facet) (defines : Facet → Bool) : Option Facet :=
  bases.find? defines

/-- A Python object as seen by `ApplicationRegistry`: a `UnitRegistry`, a
`LazyRegistry` (identified with its lifecycle state), another
`ApplicationRegistry` (identified with its current target — the object its
`_registry` slot holds), or an arbitrary non-registry value.  The
`ApplicationRegistry` constructor (lines 255-256) performs no validation, so
a handle's target ranges over all of these. -/
inductive RegObj where
  | unit (r : UnitRegistry)
  | lazy (st : LazyState)
  | app (target : RegObj)
  | otherVal (v : Val)
deriving DecidableEq

/-- The name Python would print for the type of a plain value. -/
def valTypeName : Val → String
  | .str _ => "<class str>"
  | .bool _ => "<class bool>"
  | .pynone => "<class NoneType>"
  | .typeV _ => "<class type>"
  | .pair _ _ => "<class tuple>"

/-- `type(x)` as rendered into the `TypeError` message of
`ApplicationRegistry.set` (line 278).  A materialized or broken lazy handle
has already been retyped to `UnitRegistry`. -/
def pyType : RegObj → String
  | .unit _ => "<class pint.registry.UnitRegistry>"
  | .lazy (.pending _ _) => "<class pint.registry.LazyRegistry>"
  | .lazy _ => "<class pint.registry.UnitRegistry>"
  | .app _ => "<class pint.registry.ApplicationRegistry>"
  | .otherVal v => valTypeName v

/-- `isinstance(x, (LazyRegistry, UnitRegistry))` (line 277).  Every lazy
handle passes: a pending one is a `LazyRegistry`, a materialized or broken
one has been retyped to `UnitRegistry`. -/
def isRegistryLike : RegObj → Bool
  | .unit _ => true
  | .lazy _ => true
  | .app _ => false
  | .otherVal _ => false

/-- A value written to an attribute: either a plain value or an object. -/
inductive PyAny where
  | val (v : Val)
  | obj (o : RegObj)
deriving DecidableEq

/-- An arbitrary written value seen as an object (a plain value is a
non-registry object). -/
def toRegObj : PyAny → RegObj
  | .val v => .otherVal v
  | .obj o => o

/-- Injective encoding of an object as a `Val` (used when an object is stored
into a registry's attribute dictionary). -/
def encodeObj : RegObj → Val
  | .unit r => .pair (.str "UnitRegistry") (encodeReg r)
  | .lazy (.pending a k) =>
    .pair (.str "LazyPending") (.pair (encodeList a) (encodeDict k))
  | .lazy (.materialized r) => .pair (.str "LazyMaterialized") (encodeReg r)
  | .lazy .broken => .str "LazyBroken"
  | .app t => .pair (.str "ApplicationRegistry") (encodeObj t)
  | .otherVal v => .pair (.str "object") v

/-- Injective encoding of a written value as a `Val`. -/
def encodePy : PyAny → Val
  | .val v => v
  | .obj o => encodeObj o

/-- `ApplicationRegistry.__slots__` (line 253). -/
def ApplicationRegistry.slots : List String := ["_registry"]

/-- `ApplicationRegistry.get` (lines 258-260): returns the wrapped registry.
A handle is represented by its current target, so `get` is the identity on
that state. -/
def ApplicationRegistry.get (st : RegObj) : RegObj := st

/-- `ApplicationRegistry.set` (lines 262-282): unwraps a candidate that is
itself an `ApplicationRegistry` to its current target, rejects anything that
is not a `LazyRegistry` or `UnitRegistry` with a `TypeError` naming the
offending type (leaving the stored target unchanged), and otherwise logs the
swap and stores the new target.  Returns the outcome, the handle's target
after the call, and the effect trace. -/
def ApplicationRegistry.set (st : RegObj) (newRegistry : RegObj) :
    Except String Unit × RegObj × List Effect :=
  let unwrapped :=
    match newRegistry with
    | .app t => ApplicationRegistry.get t
    | x => x
  if isRegistryLike unwrapped then (.ok (), unwrapped, [.logSwap])
  else (.error ("Expected UnitRegistry; got " ++ pyType unwrapped), st, [])

/-- The unwrapping `ApplicationRegistry.set` performs on a candidate: another
indirection handle contributes its current target (`x.get()`), anything else
stands for itself. -/
def unwrapCandidate : RegObj → RegObj
  | .app t => ApplicationRegistry.get t
  | x => x

/-- A candidate the round-trip claim ranges over: one of the three accepted
classes, where another indirection handle must itself satisfy the spec's
data-model invariant that its target is a deferred handle or a registry. -/
def validCandidate : RegObj → Bool
  | .unit _ => true
  | .lazy _ => true
  | .app t => isRegistryLike t
  | .otherVal _ => false

/-- Attribute read on an arbitrary target object (the operation
`ApplicationRegistry.__getattr__` forwards): registry semantics for a
`UnitRegistry`, the lazy hook for a `LazyRegistry`, recursive forwarding for
a nested `ApplicationRegistry`.  Returns the value and the target's updated
state (a lazy target may materialize in place). -/
def objGetattr : RegObj → String → Option Val × RegObj
  | .unit r, item => (some (regGetattr r item), .unit r)
  | .lazy st, item =>
    let o := lazyGetattr st item
    (o.1, .lazy o.2.1)
  | .app t, item =>
    let o := objGetattr t item
    (o.1, .app o.2)
  | .otherVal v, _ => (none, .otherVal v)

/-- Attribute write on an arbitrary target object: a nested
`ApplicationRegistry` target applies its own `__setattr__` slot logic
(lines 287-291). -/
def objSetattr : RegObj → String → PyAny → RegObj
  | .unit r, key, v => .unit (regSetattr r key (encodePy v))
  | .lazy st, key, v => .lazy (lazySetattr st key (encodePy v)).1
  | .app t, key, v =>
    if ApplicationRegistry.slots.contains key then .app (toRegObj v)
    else .app (objSetattr t key v)
  | .otherVal w, _, _ => .otherVal w

/-- Subscript on an arbitrary target object. -/
def objGetitem : RegObj → Val → Option Val × RegObj
  | .unit r, item => (some (regGetitem r item), .unit r)
  | .lazy st, item =>
    let o := lazyGetitem st item
    (o.1, .lazy o.2.1)
  | .app t, item =>
    let o := objGetitem t item
    (o.1, .app o.2)
  | .otherVal v, _ => (none, .otherVal v)

/-- Call on an arbitrary target object. -/
def objCall : RegObj → List Val → Option Val × RegObj
  | .unit r, args => (some (regCall r args), .unit r)
  | .lazy st, args =>
    let o := lazyCall st args
    (o.1, .lazy o.2.1)
  | .app t, args =>
    let o := objCall t args
    (o.1, .app o.2)
  | .otherVal v, _ => (none, .otherVal v)

/-- Membership test on an arbitrary target object. -/
def objContains : RegObj → Val → Option Val × RegObj
  | .unit r, item => (some (regContains r item), .unit r)
  | .lazy st, item =>
    let o := lazyContains st item
    (o.1, .lazy o.2.1)
  | .app t, item =>
    let o := objContains t item
    (o.1, .app o.2)
  | .otherVal v, _ => (none, .otherVal v)

/-- Iteration over an arbitrary target object. -/
def objIter : RegObj → Option Val × RegObj
  | .unit r => (some (regIter r), .unit r)
  | .lazy st =>
    let o := lazyIter st
    (o.1, .lazy o.2.1)
  | .app t =>
    let o := objIter t
    (o.1, .app o.2)
  | .otherVal v => (none, .otherVal v)

/-- `ApplicationRegistry.__getattr__` (lines 284-285): forwards the read to
the current target. -/
def appGetattr (st : RegObj) (name : String) : Option Val × RegObj :=
  objGetattr st name

/-- `ApplicationRegistry.__setattr__` (lines 287-291): a name in the handle's
own `__slots__` is stored on the handle itself (`self._registry = value`
replaces the target with the written value, untouched by the old target);
any other name is forwarded to the current target. -/
def appSetattr (st : RegObj) (name : String) (v : PyAny) : RegObj :=
  if ApplicationRegistry.slots.contains name then toRegObj v
  else objSetattr st name v

/-- `ApplicationRegistry.__getitem__` (lines 296-297). -/
def appGetitem (st : RegObj) (item : Val) : Option Val × RegObj :=
  objGetitem st item

/-- `ApplicationRegistry.__call__` (lines 299-300). -/
def appCall (st : RegObj) (args : List Val) : Option Val × RegObj :=
  objCall st args

/-- `ApplicationRegistry.__contains__` (lines 302-303). -/
def appContains (st : RegObj) (item : Val) : Option Val × RegObj :=
  objContains st item

/-- `ApplicationRegistry.__iter__` (lines 305-306). -/
def appIter (st : RegObj) : Option Val × RegObj :=
  objIter st

/-- The registry built by `UnitRegistry()` with every argument defaulted. -/
def sampleEager : UnitRegistry :=
  { filename := .str ""
    force_ndarray := .bool false
    force_ndarray_like := .bool false
    default_as_delta := .bool true
    autoconvert_offset_to_baseunit := .bool false
    on_redefinition := .str "warn"
    system := .pynone
    auto_reduce_dimensions := .bool false
    autoconvert_to_preferred := .bool false
    preprocessors := .pynone
    fmt_locale := .pynone
    non_int_type := .typeV "float"
    case_sensitive := .bool true
    cache_folder := .pynone
    extraAttrs := []
    afterInitDone := false }

/-- The registry a defaulted `LazyRegistry` materializes into: defaults with
the policy forced to `"raise"` and `_after_init` run. -/
def sampleMaterialized : UnitRegistry :=
  { sampleEager with on_redefinition := .str "raise", afterInitDone := true }

/-- Lookup through a cons cell. -/
theorem dictGet_cons (k0 : String) (v0 : Val) (rest : Dict) (key : String) :
    dictGet ((k0, v0) :: rest) key
      = if k0 = key then some v0 else dictGet rest key := by
  by_cases h : k0 = key <;> simp [dictGet, List.find?, h]

/-- Updating a key makes it present with the written value. -/
theorem dictGet_dictSet_self (d : Dict) (key : String) (v : Val) :
    dictGet (dictSet d key v) key = some v := by
  induction d with
  | nil => simp [dictSet, dictGet_cons]
  | cons p rest ih =>
    obtain ⟨k0, v0⟩ := p
    by_cases h : k0 = key
    · simp [dictSet, h, dictGet_cons]
    · simp [dictSet, h, dictGet_cons, ih]

/-- Updating one key leaves every other key's binding unchanged. -/
theorem dictGet_dictSet_ne (d : Dict) (key : String) (v : Val) (k2 : String)
    (h : k2 ≠ key) :
    dictGet (dictSet d key v) k2 = dictGet d k2 := by
  induction d with
  | nil => simp [dictSet, dictGet_cons, dictGet, Ne.symm h]
  | cons p rest ih =>
    obtain ⟨k0, v0⟩ := p
    by_cases h0 : k0 = key
    · subst h0
      simp [dictSet, dictGet_cons, Ne.symm h]
    · simp [dictSet, h0, dictGet_cons, ih]

/-- Updating an existing key rewrites only that binding. -/
theorem dictSet_cons_eq (k0 : String) (v0 : Val) (rest : Dict) (v : Val) :
    dictSet ((k0, v0) :: rest) k0 v = (k0, v) :: rest := by
  simp [dictSet]

/-- Updating a different key keeps the head binding. -/
theorem dictSet_cons_ne (k0 : String) (v0 : Val) (rest : Dict) (key : String)
    (v : Val) (h : k0 ≠ key) :
    dictSet ((k0, v0) :: rest) key v = (k0, v0) :: dictSet rest key v := by
  simp [dictSet, h]

/-- A keywise property of an updated dictionary holds for the original one
(updating only replaces a binding for the same key or appends the key). -/
theorem dict_all_keys_of_dictSet (d : Dict) (key : String) (v : Val)
    (P : String → Bool)
    (h : (dictSet d key v).all (fun p => P p.1) = true) :
    d.all (fun p => P p.1) = true := by
  induction d with
  | nil => simp
  | cons p rest ih =>
    obtain ⟨k0, v0⟩ := p
    by_cases h0 : k0 = key
    · subst h0
      rw [dictSet_cons_eq] at h
      simp only [List.all_cons, Bool.and_eq_true] at h ⊢
      exact h
    · rw [dictSet_cons_ne _ _ _ _ _ h0] at h
      simp only [List.all_cons, Bool.and_eq_true] at h ⊢
      exact ⟨h.1, ih h.2⟩

/-- Binding a parameter whose name was not the updated keyword is unchanged. -/
theorem boundParam_dictSet_ne (a : List Val) (k : Dict) (key : String) (v : Val)
    (i : Nat) (n : String) (h : n ≠ key) :
    boundParam a (dictSet k key v) i n = boundParam a k i n := by
  unfold boundParam
  cases a.get? i <;> simp [dictGet_dictSet_ne _ _ _ _ h]

/-- Characterization of a successful `UnitRegistry` construction. -/
theorem init_some_iff (a : List Val) (k : Dict) (r : UnitRegistry) :
    unitRegistryInit a k = some r ↔ initOk a k = true ∧ r = builtRegistry a k := by
  unfold unitRegistryInit
  split
  next h => simpa [h] using eq_comm
  next h => simp [h]

/-- A successful binding means no parameter got both a positional and a
keyword value. -/
theorem initOk_no_pos_conflict {a : List Val} {k : Dict}
    (hok : initOk a k = true) {i : Nat} (hi : i < a.length) :
    dictGet k (paramNames.getD i "") = none := by
  simp only [initOk, Bool.and_eq_true, List.all_eq_true] at hok
  have := hok.2 i (List.mem_range.2 hi)
  simpa [Option.isNone_iff_eq_none] using this

/-- If binding succeeds after forcing the `on_redefinition` keyword, the
original call had fewer than six positional arguments (otherwise the forced
keyword would collide with the sixth parameter). -/
theorem length_le_five_of_initOk_set {a : List Val} {k : Dict}
    (hok : initOk a (dictSet k "on_redefinition" (.str "raise")) = true) :
    a.length ≤ 5 := by
  by_contra hgt
  push_neg at hgt
  have h5 := initOk_no_pos_conflict hok (i := 5) (by omega)
  rw [show paramNames.getD 5 "" = "on_redefinition" from rfl,
    dictGet_dictSet_self] at h5
  simp at h5

/-- If binding succeeds with the forced `on_redefinition` keyword, it also
succeeds with the original keyword dictionary. -/
theorem initOk_of_initOk_set {a : List Val} {k : Dict}
    (hok : initOk a (dictSet k "on_redefinition" (.str "raise")) = true) :
    initOk a k = true := by
  have hlen5 := length_le_five_of_initOk_set hok
  simp only [initOk, Bool.and_eq_true] at hok ⊢
  obtain ⟨⟨hA, hB2⟩, hC2⟩ := hok
  refine ⟨⟨hA, dict_all_keys_of_dictSet _ _ _ _ hB2⟩, ?_⟩
  rw [List.all_eq_true] at hC2 ⊢
  intro i hi
  have hi5 : i < 5 := lt_of_lt_of_le (List.mem_range.1 hi) hlen5
  have hne : paramNames.getD i "" ≠ "on_redefinition" := by
    interval_cases i <;> decide
  rw [← dictGet_dictSet_ne k "on_redefinition" (Val.str "raise") _ hne]
  exact hC2 i hi

/-- `_after_init` does not change the definitional configuration. -/
theorem defConfig_after_init (r : UnitRegistry) :
    defConfig r._after_init = defConfig r := rfl

/-- Forcing the `on_redefinition` keyword changes nothing in the definitional
configuration of the constructed registry. -/
theorem defConfig_builtRegistry_set (a : List Val) (k : Dict) :
    defConfig (builtRegistry a (dictSet k "on_redefinition" (.str "raise")))
      = defConfig (builtRegistry a k) := by
  have hb : ∀ (i : Nat) (n : String), n ≠ "on_redefinition" →
      boundParam a (dictSet k "on_redefinition" (.str "raise")) i n
        = boundParam a k i n :=
    fun i n hn => boundParam_dictSet_ne a k "on_redefinition" (.str "raise") i n hn
  simp only [defConfig, builtRegistry]
  rw [hb 0 _ (by decide), hb 1 _ (by decide), hb 2 _ (by decide),
    hb 3 _ (by decide), hb 4 _ (by decide), hb 6 _ (by decide),
    hb 7 _ (by decide), hb 8 _ (by decide), hb 9 _ (by decide),
    hb 10 _ (by decide), hb 11 _ (by decide), hb 12 _ (by decide),
    hb 13 _ (by decide)]

/-- `find?` returns an element at the earliest position among those
satisfying the predicate. -/
theorem find?_indexOf_le {α : Type} [DecidableEq α] (l : List α) (p : α → Bool)
    (f g : α) (hf : l.find? p = some f) (hg : p g = true) (hgl : g ∈ l) :
    l.indexOf f ≤ l.indexOf g := by
  induction l with
  | nil => simp at hf
  | cons x xs ih =>
    by_cases hx : p x = true
    · rw [List.find?_cons_of_pos _ hx, Option.some.injEq] at hf
      subst hf
      simp [List.indexOf_cons_self]
    · rw [List.find?_cons_of_neg _ (by simp [hx])] at hf
      have hgx : g ≠ x := fun he => hx (he ▸ hg)
      have hfx : f ≠ x := by
        intro he
        subst he
        exact hx (List.find?_some hf)
      rcases List.mem_cons.1 hgl with he | hmem
      · exact absurd he hgx
      · rw [List.indexOf_cons_ne _ (Ne.symm hfx),
          List.indexOf_cons_ne _ (Ne.symm hgx)]
        exact Nat.succ_le_succ (ih hf hmem)

/-- The registry produced by a successful materialization is the one built
from the stored arguments with the forced policy, with `_after_init` run. -/
theorem lazyMaterialize_some {a : List Val} {k : Dict} {r : UnitRegistry}
    (hm : (lazyMaterialize a k).1 = some r) :
    initOk a (dictSet k "on_redefinition" (.str "raise")) = true
    ∧ r = (builtRegistry a (dictSet k "on_redefinition" (.str "raise")))._after_init
    ∧ lazyMaterialize a k
        = (some r,
           [.directStore "__class__" (.typeV "UnitRegistry"), .constructRegistry]) := by
  unfold lazyMaterialize at hm ⊢
  cases h : unitRegistryInit a (dictSet k "on_redefinition" (.str "raise")) with
  | none => rw [h] at hm; simp at hm
  | some r0 =>
    rw [h] at hm
    simp only [Option.some.injEq] at hm
    obtain ⟨hok, hb⟩ := (init_some_iff _ _ _).1 h
    subst hb
    exact ⟨hok, hm.symm, by simp [hm]⟩

/-- C8: constructing a `LazyRegistry` performs no registry construction work:
it only records the pending positional and keyword arguments (one direct
instance-dictionary store), with no construction effect. -/
theorem lazy_init_records_only (args : Option (List Val)) (kwargs : Option Dict) :
    (LazyRegistry.init args kwargs).1 = .pending (args.getD []) (kwargs.getD [])
    ∧ (LazyRegistry.init args kwargs).2.count .constructRegistry = 0
    ∧ (LazyRegistry.init args kwargs).2
        = [.directStore "params"
            (.pair (encodeList (args.getD [])) (encodeDict (kwargs.getD [])))] := by
  refine ⟨rfl, ?_, rfl⟩
  rfl

/-- C10: a `UnitRegistry` constructed without an explicit `on_redefinition`
argument (no sixth positional argument and no such keyword) passes the policy
`"warn"` to the underlying registry setup — the signature default, despite
the docstring's claim of `"raise"`. -/
theorem unit_registry_default_on_redefinition_warn
    (a : List Val) (k : Dict) (r : UnitRegistry)
    (hlen : a.length ≤ 5) (hk : dictGet k "on_redefinition" = none)
    (h : unitRegistryInit a k = some r) :
    r.on_redefinition = .str "warn" := by
  obtain ⟨-, hb⟩ := (init_some_iff _ _ _).1 h
  subst hb
  have h5 : a[5]? = none := List.getElem?_eq_none hlen
  simp [builtRegistry, boundParam, h5, hk, paramDefault]

/-- C10 witness: `UnitRegistry()` with no arguments stores policy `"warn"`. -/
theorem unit_registry_default_on_redefinition_warn_spot :
    sampleEager.on_redefinition = Val.str "warn" :=
  unit_registry_default_on_redefinition_warn [] [] sampleEager (by decide) rfl rfl

/-- C2: whatever `on_redefinition` value the pending construction kwargs
held, a `LazyRegistry` that successfully materializes produces a
`UnitRegistry` constructed with the policy forced to `"raise"`. -/
theorem lazy_materialize_forces_raise (a : List Val) (k : Dict)
    (r : UnitRegistry) (hm : (lazyMaterialize a k).1 = some r) :
    r.on_redefinition = .str "raise" := by
  obtain ⟨hok, hb, -⟩ := lazyMaterialize_some hm
  subst hb
  have hlen5 := length_le_five_of_initOk_set hok
  have h5 : a[5]? = none := List.getElem?_eq_none hlen5
  simp [UnitRegistry._after_init, builtRegistry, boundParam, h5,
    dictGet_dictSet_self]

/-- C2 witness: a lazy handle whose kwargs asked for `"warn"` materializes
with policy `"raise"`. -/
theorem lazy_materialize_forces_raise_spot :
    sampleMaterialized.on_redefinition = Val.str "raise" :=
  lazy_materialize_forces_raise [] [("on_redefinition", Val.str "warn")]
    sampleMaterialized rfl

/-- C9: on a pending `LazyRegistry`, reading `_on_redefinition` answers
`"raise"` without materializing, writing `__class__` stores the value
directly on the handle without materializing, and every other touch through
the four hooked paths leaves the pending state (the trigger fires). -/
theorem lazy_exempt_touch_paths (a : List Val) (k : Dict) (v : Val) :
    lazyGetattr (.pending a k) "_on_redefinition"
      = (some (.str "raise"), .pending a k, [])
    ∧ lazySetattr (.pending a k) "__class__" v
        = (.pending a k, [.directStore "__class__" v])
    ∧ ∀ t : Touch, exemptTouch t = false →
        isPendingState (applyTouch (.pending a k) t).2.1 = false := by
  refine ⟨rfl, rfl, ?_⟩
  intro t ht
  cases t with
  | getattrT item =>
    simp only [exemptTouch, beq_eq_false_iff_ne, ne_eq] at ht
    rcases hme : lazyMaterialize a k with ⟨o, e⟩
    cases o <;> simp [applyTouch, lazyGetattr, ht, hme, isPendingState]
  | setattrT key v2 =>
    simp only [exemptTouch, beq_eq_false_iff_ne, ne_eq] at ht
    rcases hme : lazyMaterialize a k with ⟨o, e⟩
    cases o <;> simp [applyTouch, lazySetattr, ht, hme, isPendingState]
  | getitemT item =>
    rcases hme : lazyMaterialize a k with ⟨o, e⟩
    cases o <;> simp [applyTouch, lazyGetitem, hme, isPendingState]
  | callT args =>
    rcases hme : lazyMaterialize a k with ⟨o, e⟩
    cases o <;> simp [applyTouch, lazyCall, hme, isPendingState]

/-- C9 witness: on a concrete pending handle the exempt read answers
`"raise"` in place, and a non-exempt touch leaves the pending state. -/
theorem lazy_exempt_touch_paths_spot :
    lazyGetattr (.pending [] []) "_on_redefinition"
      = (some (.str "raise"), .pending [] [], [])
    ∧ isPendingState
        (applyTouch (.pending [] []) (.getitemT (.str "meter"))).2.1 = false := by
  have h := lazy_exempt_touch_paths [] [] (.str "x")
  exact ⟨h.1, h.2.2 (.getitemT (.str "meter")) (by decide)⟩

/-- C1 counterexample: not every touch through the four hooked paths
materializes a pending handle.  Reading the attribute `_on_redefinition`
answers in place, leaving the state pending with no effect at all; and when
the stored arguments are invalid (an unknown keyword), a touch raises
without completing any construction, leaving a broken handle rather than a
`UnitRegistry`. -/
theorem lazy_touch_trigger_counterexample :
    applyTouch (.pending [] []) (.getattrT "_on_redefinition")
      = (some (.str "raise"), .pending [] [], [])
    ∧ applyTouch (.pending [] [("bogus", Val.pynone)]) (.getattrT "to_base_units")
        = (none, .broken, [.directStore "__class__" (.typeV "UnitRegistry")]) :=
  ⟨rfl, rfl⟩

/-- C1 (amended): for a pending `LazyRegistry` whose stored arguments
successfully construct a registry, any touch through the four hooked paths —
except the two exempt ones, reading `_on_redefinition` and writing
`__class__` — triggers exactly one materialization into a `UnitRegistry` and
re-dispatches the touch to it; and any subsequent touch through any of the
four paths performs no further construction, passing straight through to the
already-materialized registry. -/
theorem lazy_touch_materializes_once
    (a : List Val) (k : Dict) (r : UnitRegistry) (t1 : Touch)
    (hm : (lazyMaterialize a k).1 = some r)
    (h1 : exemptTouch t1 = false) :
    applyTouch (.pending a k) t1
      = (regTouchValue r t1, .materialized (regApplyTouch r t1),
          [.directStore "__class__" (.typeV "UnitRegistry"), .constructRegistry])
    ∧ (applyTouch (.pending a k) t1).2.2.count .constructRegistry = 1
    ∧ ∀ (r2 : UnitRegistry) (t2 : Touch),
        applyTouch (.materialized r2) t2
          = (regTouchValue r2 t2, .materialized (regApplyTouch r2 t2), [])
        ∧ (applyTouch (.materialized r2) t2).2.2.count .constructRegistry = 0 := by
  obtain ⟨-, -, hme⟩ := lazyMaterialize_some hm
  have hfst : applyTouch (.pending a k) t1
      = (regTouchValue r t1, .materialized (regApplyTouch r t1),
          [.directStore "__class__" (.typeV "UnitRegistry"), .constructRegistry]) := by
    cases t1 with
    | getattrT item =>
      simp only [exemptTouch, beq_eq_false_iff_ne, ne_eq] at h1
      simp [applyTouch, lazyGetattr, h1, hme, regTouchValue, regApplyTouch]
    | setattrT key v =>
      simp only [exemptTouch, beq_eq_false_iff_ne, ne_eq] at h1
      simp [applyTouch, lazySetattr, h1, hme, regTouchValue, regApplyTouch]
    | getitemT item =>
      simp [applyTouch, lazyGetitem, hme, regTouchValue, regApplyTouch]
    | callT args =>
      simp [applyTouch, lazyCall, hme, regTouchValue, regApplyTouch]
  refine ⟨hfst, by rw [hfst]; rfl, ?_⟩
  intro r2 t2
  cases t2 <;>
    simp [applyTouch, lazyGetattr, lazySetattr, lazyGetitem, lazyCall,
      regTouchValue, regApplyTouch]

/-- C1 witness: a first call-touch on a concrete pending handle materializes
once and re-dispatches. -/
theorem lazy_touch_materializes_once_spot :
    applyTouch (.pending [] []) (.callT [])
      = (some (regCall sampleMaterialized []), .materialized sampleMaterialized,
          [.directStore "__class__" (.typeV "UnitRegistry"), .constructRegistry]) :=
  (lazy_touch_materializes_once [] [] sampleMaterialized (.callT []) rfl rfl).1

/-- C3: `set(x)` followed by `get()` returns exactly `x` for a `UnitRegistry`
or `LazyRegistry` candidate, and for a candidate that is itself an
`ApplicationRegistry` (with the invariant target) returns the candidate's
current unwrapped target, the result of `x.get()`. -/
theorem app_set_get_roundtrip (st cand : RegObj)
    (h : validCandidate cand = true) :
    (ApplicationRegistry.set st cand).1 = .ok ()
    ∧ ApplicationRegistry.get (ApplicationRegistry.set st cand).2.1
        = unwrapCandidate cand := by
  cases cand <;>
    simp_all [ApplicationRegistry.set, ApplicationRegistry.get, validCandidate,
      isRegistryLike, unwrapCandidate]

/-- C3 witness: round trip at a concrete registry candidate. -/
theorem app_set_get_roundtrip_spot :
    (ApplicationRegistry.set (.lazy (.pending [] [])) (.unit sampleEager)).1 = .ok ()
    ∧ ApplicationRegistry.get
        (ApplicationRegistry.set (.lazy (.pending [] [])) (.unit sampleEager)).2.1
        = unwrapCandidate (.unit sampleEager) :=
  app_set_get_roundtrip (.lazy (.pending [] [])) (.unit sampleEager) rfl

/-- C4: `set` on a candidate that is none of the three registry-shaped
classes raises a `TypeError` whose message names the offending candidate's
type, and the stored target — hence `get()` — is unchanged. -/
theorem app_set_invalid_rejected (st : RegObj) (v : Val) :
    ApplicationRegistry.set st (.otherVal v)
      = (.error ("Expected UnitRegistry; got " ++ valTypeName v), st, [])
    ∧ ApplicationRegistry.get (ApplicationRegistry.set st (.otherVal v)).2.1
        = ApplicationRegistry.get st :=
  ⟨rfl, rfl⟩

/-- C5: every forwarded operation on an `ApplicationRegistry` handle
(attribute read, subscript, call, membership, iteration) returns exactly the
result of the same operation on the current target; an attribute write to a
slot name (`_registry`) updates the handle itself — the new target is the
written value, independent of the old target — while a write to any other
name is forwarded to the target. -/
theorem app_forwards_to_target (st : RegObj) (name : String) (v : PyAny)
    (item : Val) (args : List Val) :
    appGetattr st name = objGetattr st name
    ∧ appGetitem st item = objGetitem st item
    ∧ appCall st args = objCall st args
    ∧ appContains st item = objContains st item
    ∧ appIter st = objIter st
    ∧ appSetattr st "_registry" v = toRegObj v
    ∧ (ApplicationRegistry.slots.contains name = true →
        appSetattr st name v = toRegObj v)
    ∧ (ApplicationRegistry.slots.contains name = false →
        appSetattr st name v = objSetattr st name v) := by
  refine ⟨rfl, rfl, rfl, rfl, rfl, rfl, ?_, ?_⟩
  · intro h
    unfold appSetattr
    rw [if_pos h]
  · intro h
    unfold appSetattr
    rw [if_neg (by simp only [h]; exact Bool.false_ne_true)]

/-- C5 witness: a non-slot attribute write on a concrete handle forwards to
the target. -/
theorem app_forwards_to_target_spot :
    appSetattr (.unit sampleEager) "default_format" (.val (.str "P"))
      = objSetattr (.unit sampleEager) "default_format" (.val (.str "P")) :=
  (app_forwards_to_target (.unit sampleEager) "default_format"
    (.val (.str "P")) (.str "m") []).2.2.2.2.2.2.2 rfl

/-- C6: the composed `Quantity`, `Unit`, and registry types all list their
facet contributions in the same fixed precedence order — system, context,
dask, numpy, measurement, nonmultiplicative, plain — and for an operation
defined by more than one facet, resolution over that order picks the
earliest-precedence facet that defines it. -/
theorem facet_precedence_linearization
    (defines : Facet → Bool) (f g : Facet)
    (hres : resolveOp facetPrecedence defines = some f)
    (hg : defines g = true) :
    quantityFacetBases = facetPrecedence
    ∧ unitFacetBases = facetPrecedence
    ∧ registryFacetBases = facetPrecedence
    ∧ defines f = true
    ∧ facetPrecedence.indexOf f ≤ facetPrecedence.indexOf g := by
  have hfind : facetPrecedence.find? defines = some f := by
    simpa [resolveOp] using hres
  refine ⟨rfl, rfl, rfl, List.find?_some hfind, ?_⟩
  exact find?_indexOf_le _ _ _ _ hfind hg (by cases g <;> decide)

/-- C6 witness: an operation defined by both the numpy and the plain facet
resolves to the numpy facet, the earlier one in precedence. -/
theorem facet_precedence_linearization_spot :
    resolveOp facetPrecedence (fun f => f == Facet.numpy || f == Facet.plain)
      = some Facet.numpy
    ∧ facetPrecedence.indexOf Facet.numpy ≤ facetPrecedence.indexOf Facet.plain := by
  have h := facet_precedence_linearization
    (fun f => f == Facet.numpy || f == Facet.plain) Facet.numpy Facet.plain
    (by decide) (by decide)
  exact ⟨by decide, h.2.2.2.2⟩

/-- C7: calling `pi_theorem` on a fresh pending `LazyRegistry` materializes
the handle into a registry and returns the same result as calling
`pi_theorem` directly on an eagerly constructed registry built from the same
stored arguments. -/
theorem lazy_pi_theorem_matches_eager
    (a : List Val) (k : Dict) (q res : Val) (st2 : LazyState)
    (h : lazyPiTheorem (.pending a k) q = some (res, st2)) :
    isMaterializedState st2 = true
    ∧ (unitRegistryInit a k).map (Util.pi_theorem q) = some res := by
  rcases hme : lazyMaterialize a k with ⟨o, e⟩
  simp only [lazyPiTheorem, hme] at h
  cases o with
  | none => simp at h
  | some r =>
    simp only [Option.some.injEq, Prod.mk.injEq] at h
    obtain ⟨hres, hst⟩ := h
    have hm1 : (lazyMaterialize a k).1 = some r := by rw [hme]
    obtain ⟨hok2, hb, -⟩ := lazyMaterialize_some hm1
    have hok := initOk_of_initOk_set hok2
    constructor
    · rw [← hst]
      rfl
    · rw [show unitRegistryInit a k = some (builtRegistry a k) from by
        simp [unitRegistryInit, hok]]
      rw [← hres, hb]
      simp [UnitRegistry.pi_theorem, Util.pi_theorem, defConfig_after_init,
        defConfig_builtRegistry_set]

/-- C7 witness: on a concrete pending handle, the lazily-triggered
`pi_theorem` equals the eager registry's result. -/
theorem lazy_pi_theorem_matches_eager_spot :
    (unitRegistryInit [] []).map (Util.pi_theorem (Val.str "Q"))
      = some (UnitRegistry.pi_theorem sampleMaterialized (Val.str "Q")) :=
  (lazy_pi_theorem_matches_eager [] [] (Val.str "Q")
    (UnitRegistry.pi_theorem sampleMaterialized (Val.str "Q"))
    (.materialized sampleMaterialized) rfl).2

end Pint
